import Mathlib

/-
Verification of the scene-detection / clip-splitting core of the
edit_video repository.

The embedded code is:
  * src/core/detection/scene_detection.py
      (detect_scenes_advanced, detect_scenes_ffmpeg,
       detect_scenes_frame_diff, intelligent_splitting)
  * src/core/processing/video_processor.py (split_video_by_scenes)
  * src/core/utils/video_utils.py (get_video_info)

Python floats are modelled as rationals (exact arithmetic), machine
integers as Int/Nat.  Subprocess invocations (ffmpeg / ffprobe) are
modelled by explicit outcome values passed as arguments; a Python
function that can let an exception escape is modelled with Except.
-/

namespace EditVideo

/-- Python exception kinds that can escape the embedded functions:
an OS-level error from subprocess invocation (e.g. FileNotFoundError),
a KeyError from indexing an empty dict, and ZeroDivisionError from
evaluating a rational with zero denominator. -/
inductive PyErr where
  | osError
  | keyError
  | zeroDivisionError
deriving DecidableEq

/-- Outcome of the ffmpeg scene-filter subprocess run in
detect_scenes_ffmpeg (scene_detection.py lines 43-66), abstracted:
`success parsed` is a completed run whose stderr parse loop recovered
the given list of pts_time floats (lines 57-66); `calledProcessError`
is a non-zero exit, raised as subprocess.CalledProcessError by
check=True; `osError` is any other invocation failure, e.g.
FileNotFoundError when the executable is absent, which the function
does not catch. -/
inductive RunResult where
  | success (parsed : List ℚ)
  | calledProcessError
  | osError
deriving DecidableEq

/-- The fields of the dict returned by get_video_info that the
detection cascade reads (duration in seconds, fps). A failed probe
(get_video_info returning the empty dict) is modelled as `none` at
use sites. -/
structure VideoInfo where
  duration : ℚ
  fps : ℚ
deriving DecidableEq

/-- Python int() applied to a float: truncation toward zero. -/
def pyInt (q : ℚ) : ℤ := if 0 ≤ q then ⌊q⌋ else -⌊-q⌋

/-- Python range(0, stop, step) over integers. For step = 0 Python
raises ValueError; the only caller (detect_scenes_frame_diff) has
that case modelled explicitly before calling, so the final clause is
unreachable from the embedded code. -/
def pyRange (stop step : ℤ) : List ℤ :=
  if 0 < step then
    (List.range ((stop.toNat + step.toNat - 1) / step.toNat)).map (fun k => (k : ℤ) * step)
  else if step < 0 then
    (List.range (((-stop).toNat + (-step).toNat - 1) / (-step).toNat)).map (fun k => (k : ℤ) * step)
  else []

/-- One iteration of the coalescing loop of detect_scenes_ffmpeg
(scene_detection.py lines 69-71): accept a parsed timestamp when its
gap from the previously accepted one reaches min_scene_duration.
The accumulator is never empty, so getLastD 0 is filtered[-1]. -/
def accept_step (min_scene_duration : ℚ) (acc : List ℚ) (ts : ℚ) : List ℚ :=
  if min_scene_duration ≤ ts - acc.getLastD 0 then acc ++ [ts] else acc

/-- The loop `filtered_timestamps = [0.0]; for ts in timestamps: ...`
of detect_scenes_ffmpeg (scene_detection.py lines 68-71). -/
def coalesce_timestamps (min_scene_duration : ℚ) (parsed : List ℚ) : List ℚ :=
  parsed.foldl (accept_step min_scene_duration) [0]

/-- detect_scenes_ffmpeg (scene_detection.py lines 41-83).
`run` is the outcome of the scene-filter subprocess; `probedDuration`
is `get_video_info(input_video)['duration']` (line 74), `none` when
get_video_info returned the empty dict, in which case the dict lookup
raises KeyError, which the surrounding `except subprocess.CalledProcessError`
does not catch.  A CalledProcessError is caught and yields []. An OS
error from the invocation itself is not caught either. -/
def detect_scenes_ffmpeg (run : RunResult) (probedDuration : Option ℚ)
    (min_scene_duration : ℚ) : Except PyErr (List ℚ) :=
  match run with
  | RunResult.osError => Except.error PyErr.osError
  | RunResult.calledProcessError => Except.ok []
  | RunResult.success parsed =>
      let filtered := coalesce_timestamps min_scene_duration parsed
      match probedDuration with
      | none => Except.error PyErr.keyError
      | some duration =>
          if filtered ≠ [] ∧ filtered.getLastD 0 < duration then
            Except.ok (filtered ++ [duration])
          else Except.ok filtered

/-- The fixed 0.5 second sampling cadence of detect_scenes_frame_diff
(scene_detection.py line 94). -/
def sample_interval : ℚ := 1/2

/-- detect_scenes_frame_diff (scene_detection.py lines 86-113).
The whole body is wrapped in `except Exception: return []`, so a failed
probe (KeyError on the empty dict) and the ValueError raised by
`range` when `int(sample_interval * fps) == 0` both yield []. The
loop is `for t in range(0, int(duration), int(sample_interval * fps))`
with `timestamp = t / fps`, keeping timestamps at or beyond
min_scene_duration, then appending duration. -/
def detect_scenes_frame_diff (probe : Option VideoInfo)
    (min_scene_duration : ℚ) : List ℚ :=
  match probe with
  | none => []
  | some v =>
      let step := pyInt (sample_interval * v.fps)
      if step = 0 then []
      else
        ((pyRange (pyInt v.duration) step).filterMap fun t =>
          let timestamp := (t : ℚ) / v.fps
          if min_scene_duration ≤ timestamp then some timestamp else none)
        ++ [v.duration]

/-- intelligent_splitting (scene_detection.py lines 116-152), with the
`get_video_info(input_video)['duration']` read modelled as the
`duration` argument.  Chooses a clip count from fixed duration bands,
enlarges it to max 2 (int (duration / min_scene_duration)) when the
optimal clip length would fall below min_scene_duration, and emits
[0.0] ++ interior equally spaced timestamps ++ [duration]. In both
branches the final optimal_duration equals duration / num_clips. -/
def intelligent_splitting (duration min_scene_duration : ℚ) : List ℚ :=
  let nc0 : ℤ := if duration ≤ 30 then 2 else if duration ≤ 60 then 3 else 4
  let od0 : ℚ := duration / (nc0 : ℚ)
  let num_clips : ℤ :=
    if od0 < min_scene_duration then max 2 (pyInt (duration / min_scene_duration)) else nc0
  let optimal_duration : ℚ := duration / (num_clips : ℚ)
  (0 : ℚ) :: ((List.range' 1 (num_clips.toNat - 1)).map fun i : ℕ => (i : ℚ) * optimal_duration)
    ++ [duration]

/-- detect_scenes_advanced (scene_detection.py lines 11-38): the
three-strategy cascade. Each strategy reads get_video_info on the same
file; the shared `probe` argument models that probe result. An
exception escaping strategy 1 aborts the cascade; strategy 3 indexes
the probe dict without a try block, so a failed probe raises KeyError
there. -/
def detect_scenes_advanced (run : RunResult) (probe : Option VideoInfo)
    (min_scene_duration : ℚ) : Except PyErr (List ℚ) := do
  let s1 ← detect_scenes_ffmpeg run (probe.map VideoInfo.duration) min_scene_duration
  if s1.length < 2 then
    let s2 := detect_scenes_frame_diff probe min_scene_duration
    if s2.length < 2 then
      match probe with
      | none => Except.error PyErr.keyError
      | some v => Except.ok (intelligent_splitting v.duration min_scene_duration)
    else Except.ok s2
  else Except.ok s1

/-- The per-cut padding of split_video_by_scenes
(video_processor.py line 72): 0.04 seconds. -/
def padding : ℚ := 1/25

/-- The minimum viable clip duration of split_video_by_scenes
(video_processor.py line 78): 0.1 seconds. -/
def min_clip_duration : ℚ := 1/10

/-- A clip interval planned by split_video_by_scenes: the 1-based
loop counter used for the output filename, and the padded start/stop
times. -/
structure Clip where
  index : ℕ
  start : ℚ
  stop : ℚ
deriving DecidableEq

/-- One iteration of the planning part of the loop of
split_video_by_scenes (video_processor.py lines 68-85): pad the i-th
boundary pair inward and skip the candidate (yield none) when its
adjusted duration falls below 0.1; a kept candidate is numbered from
the loop counter as i+1. -/
def plan_candidate (scene_timestamps : List ℚ) (i : ℕ) : Option Clip :=
  let start_time := scene_timestamps.getD i 0
  let end_time := scene_timestamps.getD (i + 1) 0
  let adjusted_start := start_time + padding
  let adjusted_end := end_time - padding
  if adjusted_end - adjusted_start < min_clip_duration then none
  else some (Clip.mk (i + 1) adjusted_start adjusted_end)

/-- The planning part of split_video_by_scenes (video_processor.py
lines 67-85): `for i in range(total_clips)` with
total_clips = len(scene_timestamps) - 1, keeping the viable padded
candidates. -/
def split_plan (scene_timestamps : List ℚ) : List Clip :=
  (List.range (scene_timestamps.length - 1)).filterMap (plan_candidate scene_timestamps)

/-- Python f-string {n:02d}: decimal digits, zero padded to width 2. -/
def pad2 (n : ℕ) : String := if n < 10 then "0" ++ toString n else toString n

/-- The output filename of clip number n (video_processor.py line 82):
f"clip_{i+1:02d}.mp4". -/
def clip_filename (n : ℕ) : String := "clip_" ++ pad2 n ++ ".mp4"

/-- Observable outcome of one ffmpeg extraction attempt in
split_video_by_scenes (video_processor.py lines 112-148): `ok` is a
zero exit status with the output file present; `failFileWritten b`
is any failure (non-zero exit, missing-file check after a zero exit,
or a raised exception) that left a partial output file on disk, where
`b` records whether the subsequent os.remove itself raises (that
exception is swallowed by `except: pass`); `failNoFile` is a failure
with no partial file present. -/
inductive ClipOutcome where
  | ok
  | failFileWritten (removeRaises : Bool)
  | failNoFile
deriving DecidableEq

/-- The extraction loop of split_video_by_scenes (video_processor.py
lines 86-148) over the planned clips: a success appends its output
path to output_paths; a failure with a partial file attempts one
os.remove of that path (recorded in the second component) and
continues; any failure leaves output_paths unchanged. Returns
(output_paths, paths whose removal was attempted). -/
def extract_clips : List Clip → (ℕ → ClipOutcome) → List String × List String
  | [], _ => ([], [])
  | c :: rest, outcome =>
      let r := extract_clips rest outcome
      match outcome c.index with
      | ClipOutcome.ok => (clip_filename c.index :: r.1, r.2)
      | ClipOutcome.failFileWritten _ => (r.1, clip_filename c.index :: r.2)
      | ClipOutcome.failNoFile => r

/-- split_video_by_scenes (video_processor.py lines 36-150): plan the
clip intervals from the boundary list, then run the extraction loop.
`outcome i` is the result of the ffmpeg invocation for clip number i. -/
def split_video_by_scenes (scene_timestamps : List ℚ)
    (outcome : ℕ → ClipOutcome) : List String × List String :=
  extract_clips (split_plan scene_timestamps) outcome

/-- Boolean test used to state which planned clips succeed. -/
def ClipOutcome.isOk : ClipOutcome → Bool
  | ClipOutcome.ok => true
  | _ => false

/-- Boolean test for a failure that left a partial output file. -/
def ClipOutcome.leftFile : ClipOutcome → Bool
  | ClipOutcome.failFileWritten _ => true
  | _ => false

/-- The fields ffprobe reports that get_video_info
(video_utils.py lines 34-55) turns into its result dict, with
r_frame_rate already split into its rational numerator/denominator
(the string eval'd on line 49). -/
structure FFprobeData where
  duration : ℚ
  size : ℚ
  width : ℤ
  height : ℤ
  r_frame_rate_num : ℤ
  r_frame_rate_den : ℤ
  sample_rate : Option ℤ
deriving DecidableEq

/-- The dict built by get_video_info on success. -/
structure FullVideoInfo where
  duration : ℚ
  file_size_mb : ℚ
  width : ℤ
  height : ℤ
  fps : ℚ
  audio_fps : Option ℤ
deriving DecidableEq

/-- get_video_info (video_utils.py lines 12-55). `none` input models
the failure paths that return the empty dict (ffmpeg/ffprobe not
found, or subprocess.CalledProcessError, the only exception caught).
On a successful probe the dict literal evaluates
eval(r_frame_rate): a zero denominator raises ZeroDivisionError,
which no handler catches. -/
def get_video_info (run : Option FFprobeData) :
    Except PyErr (Option FullVideoInfo) :=
  match run with
  | none => Except.ok none
  | some d =>
      if d.r_frame_rate_den = 0 then Except.error PyErr.zeroDivisionError
      else Except.ok (some
        { duration := d.duration
          file_size_mb := d.size / (1024 * 1024)
          width := d.width
          height := d.height
          fps := (d.r_frame_rate_num : ℚ) / (d.r_frame_rate_den : ℚ)
          audio_fps := d.sample_rate })

/-! ### Lemmas about the planning loop of split_video_by_scenes -/

/-- Characterization of one kept planning candidate. -/
lemma plan_candidate_eq_some {ts : List ℚ} {i : ℕ} {c : Clip} :
    plan_candidate ts i = some c ↔
      ¬(ts.getD (i + 1) 0 - padding - (ts.getD i 0 + padding) < min_clip_duration) ∧
      c = Clip.mk (i + 1) (ts.getD i 0 + padding) (ts.getD (i + 1) 0 - padding) := by
  simp only [plan_candidate]
  split_ifs with h
  · refine ⟨fun hc => absurd hc (by simp), ?_⟩
    rintro ⟨hcond, -⟩
    exact absurd h hcond
  · refine ⟨fun hc => ⟨h, (Option.some_inj.mp hc).symm⟩, ?_⟩
    rintro ⟨-, hce⟩
    rw [hce]

/-- Membership in the plan comes from a loop index below total_clips. -/
lemma mem_split_plan {ts : List ℚ} {c : Clip} :
    c ∈ split_plan ts ↔ ∃ i, i < ts.length - 1 ∧ plan_candidate ts i = some c := by
  unfold split_plan
  simp [List.mem_filterMap, List.mem_range]

/-- Pairwise facts about the plan reduce to facts about ordered pairs of
kept loop indices. -/
lemma split_plan_pairwise (ts : List ℚ) (R : Clip → Clip → Prop)
    (hR : ∀ i j ci cj, i < j → j < ts.length - 1 →
      plan_candidate ts i = some ci → plan_candidate ts j = some cj → R ci cj) :
    List.Pairwise R (split_plan ts) := by
  unfold split_plan
  rw [List.pairwise_filterMap, List.pairwise_iff_getElem]
  intro a b ha hb hab
  rw [List.length_range] at ha hb
  intro ci hci cj hcj
  rw [List.getElem_range] at hci hcj
  rw [Option.mem_def] at hci hcj
  exact hR a b ci cj hab hb hci hcj

/-- A strictly sorted boundary list is strictly monotone under getD. -/
lemma getD_strict_mono {ts : List ℚ} (h : List.Pairwise (· < ·) ts) {i j : ℕ}
    (hij : i < j) (hj : j < ts.length) : ts.getD i 0 < ts.getD j 0 := by
  rw [List.getD_eq_getElem ts 0 (hij.trans hj), List.getD_eq_getElem ts 0 hj]
  exact List.pairwise_iff_getElem.mp h i j (hij.trans hj) hj hij

/-- Weak monotonicity version of getD_strict_mono. -/
lemma getD_mono {ts : List ℚ} (h : List.Pairwise (· < ·) ts) {i j : ℕ}
    (hij : i ≤ j) (hj : j < ts.length) : ts.getD i 0 ≤ ts.getD j 0 := by
  rcases hij.lt_or_eq with hlt | he
  · exact (getD_strict_mono h hlt hj).le
  · rw [he]

/-- C7: for a strictly increasing boundary sequence with at least two
entries, every planned interval is a padded adjacent boundary pair with
duration at least the 0.1s minimum (shorter candidates are skipped, not
errors), the plan is ordered and pairwise non-overlapping, and a
two-entry boundary list whose only candidate is made non-viable by the
padding yields an empty plan rather than a negative-duration interval. -/
theorem plan_intervals_valid (ts : List ℚ) (hsorted : List.Chain' (· < ·) ts)
    (hlen : 2 ≤ ts.length) :
    (∀ c ∈ split_plan ts,
      min_clip_duration ≤ c.stop - c.start ∧
      ∃ i, i + 1 < ts.length ∧ c.start = ts.getD i 0 + padding ∧
        c.stop = ts.getD (i + 1) 0 - padding) ∧
    List.Pairwise (fun c d : Clip => c.stop < d.start) (split_plan ts) ∧
    (∀ a b : ℚ, ts = [a, b] → b - padding - (a + padding) < min_clip_duration →
      split_plan ts = []) := by
  have hpw : List.Pairwise (· < ·) ts := List.chain'_iff_pairwise.mp hsorted
  refine ⟨?_, ?_, ?_⟩
  · intro c hc
    obtain ⟨i, hi, hsome⟩ := mem_split_plan.mp hc
    obtain ⟨hcond, hce⟩ := plan_candidate_eq_some.mp hsome
    subst hce
    refine ⟨?_, i, by omega, rfl, rfl⟩
    dsimp
    linarith [not_lt.mp hcond]
  · refine split_plan_pairwise ts _ ?_
    intro i j ci cj hij hj hci hcj
    obtain ⟨-, hei⟩ := plan_candidate_eq_some.mp hci
    obtain ⟨-, hej⟩ := plan_candidate_eq_some.mp hcj
    subst hei; subst hej
    dsimp
    have h1 : ts.getD (i + 1) 0 ≤ ts.getD j 0 := getD_mono hpw (by omega) (by omega)
    have hp : (0 : ℚ) < padding := by norm_num [padding]
    linarith
  · intro a b hab hshort
    subst hab
    have hnone : plan_candidate [a, b] 0 = none := by
      simp only [plan_candidate]
      rw [if_pos]
      simpa [List.getD] using hshort
    simp [split_plan, List.range_succ, hnone]

/-- Witness for plan_intervals_valid at the boundary list [0, 5, 30]. -/
theorem plan_intervals_valid_w :
    List.Chain' (· < ·) ([0, 5, 30] : List ℚ) ∧ 2 ≤ ([0, 5, 30] : List ℚ).length ∧
    List.Pairwise (fun c d : Clip => c.stop < d.start) (split_plan [0, 5, 30]) := by
  have h1 : List.Chain' (· < ·) ([0, 5, 30] : List ℚ) := by norm_num
  exact ⟨h1, by norm_num, (plan_intervals_valid [0, 5, 30] h1 (by norm_num)).2.1⟩

set_option maxRecDepth 100000 in
set_option maxHeartbeats 2000000 in
/-- C6 (amended): the index carried by each kept clip is the 1-based
position of its boundary pair among all candidate pairs, kept or
discarded; indices along the plan are strictly increasing, so
filenames are pairwise distinct and (below 100 clips) lexicographically
ordered like the indices; a discarded candidate leaves a numbering gap. -/
theorem clip_numbering_amended (ts : List ℚ) :
    (∀ c ∈ split_plan ts, ∃ i, i + 1 < ts.length ∧ c.index = i + 1 ∧
      c.start = ts.getD i 0 + padding ∧ c.stop = ts.getD (i + 1) 0 - padding) ∧
    List.Pairwise (fun c d : Clip => c.index < d.index) (split_plan ts) ∧
    (∀ i j : Fin 100, (i : ℕ) < (j : ℕ) →
      (clip_filename i).data < (clip_filename j).data) := by
  refine ⟨?_, ?_, ?_⟩
  · intro c hc
    obtain ⟨i, hi, hsome⟩ := mem_split_plan.mp hc
    obtain ⟨hcond, hce⟩ := plan_candidate_eq_some.mp hsome
    subst hce
    exact ⟨i, by omega, rfl, rfl, rfl⟩
  · refine split_plan_pairwise ts _ ?_
    intro i j ci cj hij hj hci hcj
    obtain ⟨-, hei⟩ := plan_candidate_eq_some.mp hci
    obtain ⟨-, hej⟩ := plan_candidate_eq_some.mp hcj
    subst hei; subst hej
    dsimp
    omega
  · decide

/-- Counterexample to C6 as stated: boundaries [0, 0.05, 10] discard
the first candidate pair, and the single kept clip is numbered 2 and
named clip_02.mp4, not its kept-rank 1 / clip_01.mp4; the numbering
has a gap. -/
theorem clip_numbering_cex :
    split_plan [0, 1/20, 10] = [Clip.mk 2 (9/100) (249/25)] ∧
    clip_filename 2 = "clip_02.mp4" ∧ clip_filename 2 ≠ "clip_01.mp4" := by
  refine ⟨?_, by decide, by decide⟩
  have h0 : ([0, 1/20, 10] : List ℚ).getD 0 0 = 0 := by norm_num [List.getD]
  have h1 : ([0, 1/20, 10] : List ℚ).getD 1 0 = 1/20 := by norm_num [List.getD]
  have h2 : ([0, 1/20, 10] : List ℚ).getD 2 0 = 10 := by norm_num [List.getD]
  norm_num [split_plan, plan_candidate, List.range_succ, padding, min_clip_duration,
    List.filterMap_cons, h0, h1, h2]

/-- Witness for clip_numbering_amended at boundaries [0, 0.05, 10]. -/
theorem clip_numbering_amended_w :
    (∃ i, i + 1 < ([0, 1/20, 10] : List ℚ).length ∧
      (Clip.mk 2 (9/100) (249/25)).index = i + 1 ∧
      (Clip.mk 2 (9/100) (249/25)).start = ([0, 1/20, 10] : List ℚ).getD i 0 + padding ∧
      (Clip.mk 2 (9/100) (249/25)).stop = ([0, 1/20, 10] : List ℚ).getD (i + 1) 0 - padding) ∧
    (clip_filename 4).data < (clip_filename 7).data := by
  have h := clip_numbering_amended [0, 1/20, 10]
  refine ⟨h.1 _ (mem_split_plan.mpr ⟨1, by norm_num, plan_candidate_eq_some.mpr ⟨?_, ?_⟩⟩),
    h.2.2 ⟨4, by norm_num⟩ ⟨7, by norm_num⟩ (by norm_num)⟩
  · norm_num [List.getD, padding, min_clip_duration]
  · simp only [Clip.mk.injEq]
    norm_num [List.getD, padding]

/-! ### The extraction loop -/

/-- Closed form of the extraction loop: successes contribute their
filename to output_paths in plan order, failures that left a file get
exactly one removal attempt, and no failure stops the loop. -/
lemma extract_clips_eq (l : List Clip) (outcome : ℕ → ClipOutcome) :
    extract_clips l outcome =
      ((l.filter fun c => (outcome c.index).isOk).map fun c => clip_filename c.index,
       (l.filter fun c => (outcome c.index).leftFile).map fun c => clip_filename c.index) := by
  induction l with
  | nil => rfl
  | cons c rest ih =>
      cases h : outcome c.index <;>
        simp [extract_clips, h, ih, List.filter_cons, ClipOutcome.isOk, ClipOutcome.leftFile]

/-- C8: per-interval extraction failure is isolated. The returned
output paths are exactly the filenames of the planned clips whose
ffmpeg invocation succeeded and produced the file, in order — so a
failed interval is absent from the result but all later intervals are
still processed; each failure that left a partial file gets a removal
attempt, and the result does not depend on whether that removal itself
raises. -/
theorem extraction_isolated (ts : List ℚ) (outcome : ℕ → ClipOutcome) :
    (split_video_by_scenes ts outcome).1 =
      (((split_plan ts).filter fun c => (outcome c.index).isOk).map
        fun c => clip_filename c.index) ∧
    (split_video_by_scenes ts outcome).2 =
      (((split_plan ts).filter fun c => (outcome c.index).leftFile).map
        fun c => clip_filename c.index) := by
  constructor <;> rw [split_video_by_scenes, extract_clips_eq]

/-! ### Duration-based fallback scenarios -/

/-- C3: the fixed duration bands give 3 clips for a 60s video with an
8s minimum, boundaries [0, 20, 40, 60], and 2 clips for a 20s video
with a 10s minimum (the optimal clip length 10 is not below the
minimum, so the band count is kept), boundaries [0, 10, 20]. -/
theorem intelligent_splitting_scenarios :
    intelligent_splitting 60 8 = [0, 20, 40, 60] ∧
    intelligent_splitting 20 10 = [0, 10, 20] := by
  constructor <;> norm_num [intelligent_splitting, pyInt, List.range']

/-! ### Probe and strategy error behaviour -/

/-- C9: a probed file whose r_frame_rate rational has denominator 0
makes get_video_info raise ZeroDivisionError (from eval of the
rational string), an uncaught exception — not a structured failure
value and not an infinite frame rate. -/
theorem probe_zero_denominator_bug :
    get_video_info (some (FFprobeData.mk 10 0 1920 1080 30 0 none)) =
      Except.error PyErr.zeroDivisionError := rfl

/-- C5 (amended): a scene-filter invocation that fails by exiting
non-zero is caught (subprocess.CalledProcessError) and the strategy
returns the empty list without raising, for every probe state and
minimum scene duration. -/
theorem ffmpeg_nonzero_exit_soft (probedDuration : Option ℚ) (m : ℚ) :
    detect_scenes_ffmpeg RunResult.calledProcessError probedDuration m = Except.ok [] := rfl

/-- Counterexample to C5 as stated: an OS-level invocation failure
(e.g. the executable missing) is not caught, so the strategy raises
instead of returning the empty list. -/
theorem ffmpeg_os_error_cex :
    detect_scenes_ffmpeg RunResult.osError (some 10) 8 = Except.error PyErr.osError ∧
    (Except.error PyErr.osError : Except PyErr (List ℚ)) ≠ Except.ok [] := by
  exact ⟨rfl, by simp⟩

/-- C4: the sampled strategy does not cover the timeline. For a 60s,
30fps video the loop `for t in range(0, int(duration), int(0.5*fps))`
treats t as a frame index but bounds it by seconds, so the sampled
timestamps t/fps only reach 1.5s: with an 8s-scale minimum nothing
survives and only [60] is returned, and even with minimum 0 the
samples are [0, 0.5, 1, 1.5] — not one sample each 0.5s across 60s as
the code's own comment ("Sample frames every 0.5 seconds") intends. -/
theorem frame_diff_coverage_bug :
    detect_scenes_frame_diff (some (VideoInfo.mk 60 30)) 2 = [60] ∧
    detect_scenes_frame_diff (some (VideoInfo.mk 60 30)) 0 = [0, 1/2, 1, 3/2, 60] := by
  have h1 : pyRange 60 15 = [0, 15, 30, 45] := by decide
  constructor <;> norm_num [detect_scenes_frame_diff, sample_interval, pyInt, h1, List.filterMap]

/-! ### The duration-based fallback in general -/

/-- Both branches of intelligent_splitting emit the evenly spaced list
determined by the final num_clips, which is always at least 2. -/
lemma intelligent_splitting_eq (duration m : ℚ) :
    ∃ n : ℤ, 2 ≤ n ∧ intelligent_splitting duration m =
      (0 : ℚ) :: ((List.range' 1 (n.toNat - 1)).map fun i : ℕ => (i : ℚ) * (duration / (n : ℚ)))
        ++ [duration] := by
  refine ⟨if duration /
        (Int.cast (if duration ≤ 30 then (2 : ℤ) else if duration ≤ 60 then 3 else 4) : ℚ)
        < m then max 2 (pyInt (duration / m))
      else if duration ≤ 30 then 2 else if duration ≤ 60 then 3 else 4, ?_, rfl⟩
  split_ifs
  all_goals first | exact le_max_left _ _ | norm_num

/-- An evenly spaced list over a positive duration with n ≥ 2 parts is
strictly sorted. -/
lemma equal_split_sorted (duration : ℚ) (n : ℤ) (hd : 0 < duration) (hn : 2 ≤ n) :
    List.Pairwise (· < ·)
      ((0 : ℚ) :: ((List.range' 1 (n.toNat - 1)).map fun i : ℕ => (i : ℚ) * (duration / (n : ℚ)))
        ++ [duration]) := by
  have hn0 : (0 : ℚ) < (n : ℚ) := by exact_mod_cast (by omega : (0 : ℤ) < n)
  have hod : 0 < duration / (n : ℚ) := div_pos hd hn0
  have hlt : ∀ i : ℕ, i ∈ List.range' 1 (n.toNat - 1) →
      (i : ℚ) * (duration / (n : ℚ)) < duration := by
    intro i hi
    rw [List.mem_range'_1] at hi
    have hi2 : (i : ℚ) < (n : ℚ) := by
      have hi3 : (i : ℤ) < n := by omega
      exact_mod_cast hi3
    calc (i : ℚ) * (duration / (n : ℚ))
        < (n : ℚ) * (duration / (n : ℚ)) := by
          exact mul_lt_mul_of_pos_right hi2 hod
      _ = duration := by field_simp
  rw [List.pairwise_append]
  refine ⟨?_, by simp, ?_⟩
  · rw [List.pairwise_cons]
    constructor
    · intro x hx
      obtain ⟨i, hi, rfl⟩ := List.mem_map.mp hx
      rw [List.mem_range'_1] at hi
      have hi0 : (0 : ℚ) < (i : ℚ) := by exact_mod_cast hi.1
      exact mul_pos hi0 hod
    · rw [List.pairwise_map]
      refine (List.pairwise_lt_range' 1 (n.toNat - 1)).imp ?_
      intro a b hab
      have hab2 : (a : ℚ) < (b : ℚ) := by exact_mod_cast hab
      exact mul_lt_mul_of_pos_right hab2 hod
  · intro x hx y hy
    rw [List.mem_singleton.mp hy]
    rcases List.mem_cons.mp hx with rfl | hx
    · exact hd
    · obtain ⟨i, hi, rfl⟩ := List.mem_map.mp hx
      exact hlt i hi

/-- The fallback always starts at 0. -/
lemma intelligent_splitting_mem_zero (duration m : ℚ) :
    (0 : ℚ) ∈ intelligent_splitting duration m := by
  obtain ⟨n, hn, he⟩ := intelligent_splitting_eq duration m
  rw [he]
  exact List.mem_cons_self _ _

/-- The fallback always ends at the probed duration. -/
lemma intelligent_splitting_getLast (duration m : ℚ) :
    (intelligent_splitting duration m).getLast? = some duration := by
  obtain ⟨n, hn, he⟩ := intelligent_splitting_eq duration m
  rw [he, List.getLast?_concat]

/-- C2: for every duration > 0 and minimum scene duration > 0, the
duration-based fallback returns a strictly increasing list of at least
2 timestamps that starts at 0.0 and ends at duration. -/
theorem intelligent_splitting_valid (duration m : ℚ) (hd : 0 < duration) (hm : 0 < m) :
    List.Chain' (· < ·) (intelligent_splitting duration m) ∧
    2 ≤ (intelligent_splitting duration m).length ∧
    (intelligent_splitting duration m).head? = some 0 ∧
    (intelligent_splitting duration m).getLast? = some duration := by
  obtain ⟨n, hn, he⟩ := intelligent_splitting_eq duration m
  refine ⟨?_, ?_, ?_, intelligent_splitting_getLast duration m⟩
  · rw [he]
    exact List.chain'_iff_pairwise.mpr (equal_split_sorted duration n hd hn)
  · rw [he]
    simp
  · rw [he]
    rfl

/-- Witness for intelligent_splitting_valid at duration 60, minimum 8. -/
theorem intelligent_splitting_valid_w :
    (0 : ℚ) < 60 ∧ (0 : ℚ) < 8 ∧
    (List.Chain' (· < ·) (intelligent_splitting 60 8) ∧
     2 ≤ (intelligent_splitting 60 8).length ∧
     (intelligent_splitting 60 8).head? = some 0 ∧
     (intelligent_splitting 60 8).getLast? = some 60) :=
  ⟨by norm_num, by norm_num, intelligent_splitting_valid 60 8 (by norm_num) (by norm_num)⟩

/-! ### The content-change strategy and the cascade -/

/-- The coalescing fold only ever appends to its accumulator. -/
lemma foldl_accept_append (m : ℚ) (parsed : List ℚ) :
    ∀ acc, ∃ suffix, parsed.foldl (accept_step m) acc = acc ++ suffix := by
  induction parsed with
  | nil => exact fun acc => ⟨[], by simp⟩
  | cons t rest ih =>
      intro acc
      rw [List.foldl_cons]
      have hstep : accept_step m acc t =
          if m ≤ t - acc.getLastD 0 then acc ++ [t] else acc := rfl
      rw [hstep]
      by_cases h : m ≤ t - acc.getLastD 0
      · rw [if_pos h]
        obtain ⟨s, hs⟩ := ih (acc ++ [t])
        exact ⟨[t] ++ s, by rw [hs, List.append_assoc]⟩
      · rw [if_neg h]
        exact ih acc

/-- Elements produced by the coalescing fold come from the accumulator
or from the parsed timestamps. -/
lemma mem_foldl_accept (m : ℚ) (parsed : List ℚ) :
    ∀ acc x, x ∈ parsed.foldl (accept_step m) acc → x ∈ acc ∨ x ∈ parsed := by
  induction parsed with
  | nil => exact fun acc x hx => Or.inl hx
  | cons t rest ih =>
      intro acc x hx
      rw [List.foldl_cons] at hx
      have hstep : accept_step m acc t =
          if m ≤ t - acc.getLastD 0 then acc ++ [t] else acc := rfl
      rw [hstep] at hx
      by_cases h : m ≤ t - acc.getLastD 0
      · rw [if_pos h] at hx
        rcases ih (acc ++ [t]) x hx with hin | hin
        · rcases List.mem_append.mp hin with h1 | h1
          · exact Or.inl h1
          · exact Or.inr (by simp [List.mem_singleton.mp h1])
        · exact Or.inr (List.mem_cons_of_mem t hin)
      · rw [if_neg h] at hx
        rcases ih acc x hx with h1 | h1
        · exact Or.inl h1
        · exact Or.inr (List.mem_cons_of_mem t h1)

/-- The coalesced list always begins with the hard-coded 0.0. -/
lemma coalesce_cons (m : ℚ) (parsed : List ℚ) :
    ∃ suffix, coalesce_timestamps m parsed = 0 :: suffix := by
  obtain ⟨s, hs⟩ := foldl_accept_append m parsed [0]
  exact ⟨s, by simpa using hs⟩

/-- Elements of the coalesced list are 0 or parsed timestamps. -/
lemma mem_coalesce {m : ℚ} {parsed : List ℚ} {x : ℚ}
    (hx : x ∈ coalesce_timestamps m parsed) : x = 0 ∨ x ∈ parsed := by
  rcases mem_foldl_accept m parsed [0] x hx with h | h
  · exact Or.inl (List.mem_singleton.mp h)
  · exact Or.inr h

/-- getLast? of a nonempty list is its getLastD. -/
lemma getLast?_eq_getLastD {l : List ℚ} (h : l ≠ []) :
    l.getLast? = some (l.getLastD 0) := by
  rw [List.getLastD_eq_getLast?, List.getLast?_eq_getLast l h]
  rfl

/-- Master description of strategy 1 on a completed subprocess run with
a successful probe: the result always starts with 0, its last entry is
at least the probed duration, it has at least two entries when the
duration is positive, and it ends exactly at the duration when no
parsed timestamp exceeds the duration. -/
lemma ffmpeg_success_shape (parsed : List ℚ) (duration m : ℚ) :
    ∃ r, detect_scenes_ffmpeg (RunResult.success parsed) (some duration) m = Except.ok r ∧
      (∃ rest, r = 0 :: rest) ∧
      (∃ l, r.getLast? = some l ∧ duration ≤ l) ∧
      (0 < duration → 2 ≤ r.length) ∧
      (0 < duration → (∀ t ∈ parsed, t ≤ duration) → r.getLast? = some duration) := by
  obtain ⟨suffix, hsx⟩ := coalesce_cons m parsed
  have hne : coalesce_timestamps m parsed ≠ [] := by
    rw [hsx]
    exact List.cons_ne_nil _ _
  by_cases hld : (coalesce_timestamps m parsed).getLastD 0 < duration
  · refine ⟨coalesce_timestamps m parsed ++ [duration], ?_, ?_, ?_, ?_, ?_⟩
    · show (if coalesce_timestamps m parsed ≠ [] ∧
          (coalesce_timestamps m parsed).getLastD 0 < duration then
            Except.ok (coalesce_timestamps m parsed ++ [duration])
          else Except.ok (coalesce_timestamps m parsed)) = _
      rw [if_pos ⟨hne, hld⟩]
    · exact ⟨suffix ++ [duration], by rw [hsx, List.cons_append]⟩
    · exact ⟨duration, List.getLast?_concat _, le_refl _⟩
    · intro _
      rw [hsx]
      simp
    · intro _ _
      exact List.getLast?_concat _
  · refine ⟨coalesce_timestamps m parsed, ?_, ⟨suffix, hsx⟩, ?_, ?_, ?_⟩
    · show (if coalesce_timestamps m parsed ≠ [] ∧
          (coalesce_timestamps m parsed).getLastD 0 < duration then
            Except.ok (coalesce_timestamps m parsed ++ [duration])
          else Except.ok (coalesce_timestamps m parsed)) = _
      rw [if_neg]
      rintro ⟨-, h2⟩
      exact hld h2
    · exact ⟨(coalesce_timestamps m parsed).getLastD 0, getLast?_eq_getLastD hne,
        not_lt.mp hld⟩
    · intro hdpos
      rcases List.eq_nil_or_concat suffix with hs0 | ⟨s2, a, rfl⟩
      · exfalso
        rw [hs0] at hsx
        rw [hsx] at hld
        exact hld (by simpa using hdpos)
      · rw [hsx]
        simp
    · intro hdpos hall
      have hlast := getLast?_eq_getLastD hne
      have hmem : (coalesce_timestamps m parsed).getLastD 0 ∈ coalesce_timestamps m parsed := by
        have h2 := List.getLast?_eq_getLast _ hne
        rw [hlast] at h2
        rw [Option.some_inj.mp h2]
        exact List.getLast_mem hne
      have hle : duration ≤ (coalesce_timestamps m parsed).getLastD 0 := not_lt.mp hld
      rcases mem_coalesce hmem with h0 | hp
      · exfalso
        rw [h0] at hle
        linarith
      · rw [hlast, le_antisymm (hall _ hp) hle]

/-- Bind on a successful Except value. -/
lemma except_bind_ok {α β : Type} (a : α) (k : α → Except PyErr β) :
    ((Except.ok a : Except PyErr α) >>= k) = k a := rfl

/-- The cascade as a case split on strategy 1's outcome. -/
lemma advanced_def (run : RunResult) (v : VideoInfo) (m : ℚ) :
    detect_scenes_advanced run (some v) m =
      match detect_scenes_ffmpeg run (some v.duration) m with
      | Except.error e => Except.error e
      | Except.ok s1 =>
          if s1.length < 2 then
            if (detect_scenes_frame_diff (some v) m).length < 2 then
              Except.ok (intelligent_splitting v.duration m)
            else Except.ok (detect_scenes_frame_diff (some v) m)
          else Except.ok s1 := by
  unfold detect_scenes_advanced
  simp only [Option.map_some']
  cases detect_scenes_ffmpeg run (some v.duration) m with
  | error e => rfl
  | ok s1 => rfl

/-- C10 (amended): when the scene-filter subprocess run completes and
the probe succeeds, and no parsed timestamp exceeds the positive
probed duration, strategy 1 returns a list that begins with 0.0, ends
exactly at duration, and has at least 2 entries — in particular this
holds when zero timestamps were parsed — and consequently the cascade
returns strategy 1's result unchanged, advancing to strategies 2 and 3
only when strategy 1 yields fewer than 2 entries. -/
theorem ffmpeg_success_complete (parsed : List ℚ) (v : VideoInfo) (m : ℚ) (r : List ℚ)
    (hd : 0 < v.duration)
    (hall : ∀ t ∈ parsed, t ≤ v.duration)
    (hr : detect_scenes_ffmpeg (RunResult.success parsed) (some v.duration) m = Except.ok r) :
    r.head? = some 0 ∧ 2 ≤ r.length ∧ r.getLast? = some v.duration ∧
    detect_scenes_advanced (RunResult.success parsed) (some v) m = Except.ok r := by
  obtain ⟨r0, hr0, ⟨rest, hrest⟩, -, hlen, hlast⟩ := ffmpeg_success_shape parsed v.duration m
  rw [hr0] at hr
  have hrr : r0 = r := by simpa using hr
  subst hrr
  have h2 : ¬(r0.length < 2) := by
    have := hlen hd
    omega
  refine ⟨by rw [hrest]; rfl, hlen hd, hlast hd hall, ?_⟩
  rw [advanced_def, hr0]
  simp only [if_neg h2]

/-- Witness for ffmpeg_success_complete: a 10s probe, a completed run
with zero parsed timestamps, minimum 8. -/
theorem ffmpeg_success_complete_w :
    ([0, 10] : List ℚ).head? = some 0 ∧ 2 ≤ ([0, 10] : List ℚ).length ∧
    ([0, 10] : List ℚ).getLast? = some 10 ∧
    detect_scenes_advanced (RunResult.success []) (some (VideoInfo.mk 10 30)) 8 =
      Except.ok [0, 10] := by
  have hr : detect_scenes_ffmpeg (RunResult.success []) (some (10 : ℚ)) 8 = Except.ok [0, 10] := by
    norm_num [detect_scenes_ffmpeg, coalesce_timestamps, accept_step, List.foldl, List.getLastD]
  exact ffmpeg_success_complete [] (VideoInfo.mk 10 30) 8 [0, 10] (by norm_num)
    (by simp) hr

/-- Counterexample to C10 as stated: a completed run whose stderr
parse yields the timestamp 11 on a file whose probed duration is 10
returns [0, 11] — at least 2 entries and starting at 0, but its last
entry is 11, not the duration 10. -/
theorem ffmpeg_overshoot_cex :
    detect_scenes_ffmpeg (RunResult.success [11]) (some 10) 2 = Except.ok [0, 11] ∧
    ([0, 11] : List ℚ).getLast? = some 11 ∧ (11 : ℚ) ≠ 10 := by
  refine ⟨?_, rfl, by norm_num⟩
  norm_num [detect_scenes_ffmpeg, coalesce_timestamps, accept_step, List.foldl, List.getLastD]

/-- Python range(0, 0, step) is always empty. -/
lemma pyRange_zero_stop (step : ℤ) : pyRange 0 step = [] := by
  unfold pyRange
  split_ifs with h1 h2
  · have hs : 0 < step.toNat := by omega
    rw [show (0 : ℤ).toNat = 0 from rfl, Nat.div_eq_of_lt (by omega)]
    rfl
  · have hs : 0 < (-step).toNat := by omega
    rw [show (-(0 : ℤ)).toNat = 0 from rfl, Nat.div_eq_of_lt (by omega)]
    rfl
  · rfl

/-- int(0.0) is 0. -/
lemma pyInt_zero : pyInt 0 = 0 := by norm_num [pyInt]

/-- Unfolding of detect_scenes_frame_diff on a successful probe. -/
lemma frame_diff_def (v : VideoInfo) (m : ℚ) :
    detect_scenes_frame_diff (some v) m =
      if pyInt (sample_interval * v.fps) = 0 then []
      else ((pyRange (pyInt v.duration) (pyInt (sample_interval * v.fps))).filterMap fun t =>
          if m ≤ (t : ℚ) / v.fps then some ((t : ℚ) / v.fps) else none) ++ [v.duration] := rfl

/-- A nonempty frame-difference result ends at the probed duration. -/
lemma frame_diff_getLast {v : VideoInfo} {m : ℚ}
    (h : detect_scenes_frame_diff (some v) m ≠ []) :
    (detect_scenes_frame_diff (some v) m).getLast? = some v.duration := by
  rw [frame_diff_def] at h ⊢
  by_cases hstep : pyInt (sample_interval * v.fps) = 0
  · rw [if_pos hstep] at h
    exact absurd rfl h
  · rw [if_neg hstep]
    exact List.getLast?_concat _

/-- On a zero-duration probe the frame-difference strategy yields
fewer than 2 entries (so the cascade falls through to strategy 3). -/
lemma frame_diff_zero_duration {v : VideoInfo} (hd : v.duration = 0) (m : ℚ) :
    (detect_scenes_frame_diff (some v) m).length < 2 := by
  rw [frame_diff_def]
  by_cases hstep : pyInt (sample_interval * v.fps) = 0
  · rw [if_pos hstep]
    norm_num
  · rw [if_neg hstep, hd, pyInt_zero, pyRange_zero_stop]
    norm_num

/-- C1 (amended): whenever the cascade returns a boundary list for a
file probed with nonnegative duration, the list's last entry is at
least the probed duration (exactly the duration unless strategy 1
accepted a parsed timestamp beyond it); the list contains 0 whenever
strategy 1's subprocess run completed, and whenever the result was not
produced by the frame-difference strategy. A frame-difference result
can omit 0, so {0, duration} ⊆ result does not hold as stated. -/
theorem detect_endpoints_amended (run : RunResult) (v : VideoInfo) (m : ℚ) (r : List ℚ)
    (hd : 0 ≤ v.duration)
    (h : detect_scenes_advanced run (some v) m = Except.ok r) :
    (∃ l, r.getLast? = some l ∧ v.duration ≤ l) ∧
    (∀ parsed, run = RunResult.success parsed → (0 : ℚ) ∈ r) ∧
    (r ≠ detect_scenes_frame_diff (some v) m → (0 : ℚ) ∈ r) := by
  cases run with
  | osError =>
      exfalso
      rw [advanced_def, show detect_scenes_ffmpeg RunResult.osError (some v.duration) m =
        Except.error PyErr.osError from rfl] at h
      simp at h
  | calledProcessError =>
      have hcpe : detect_scenes_advanced RunResult.calledProcessError (some v) m =
          if (detect_scenes_frame_diff (some v) m).length < 2 then
            Except.ok (intelligent_splitting v.duration m)
          else Except.ok (detect_scenes_frame_diff (some v) m) := by
        rw [advanced_def]
        exact rfl
      rw [hcpe] at h
      by_cases hlen : (detect_scenes_frame_diff (some v) m).length < 2
      · rw [if_pos hlen] at h
        have hre : intelligent_splitting v.duration m = r := by simpa using h
        refine ⟨⟨v.duration, ?_, le_refl _⟩, fun parsed hpe => ?_, fun _ => ?_⟩
        · rw [← hre]
          exact intelligent_splitting_getLast _ _
        · exact RunResult.noConfusion hpe
        · rw [← hre]
          exact intelligent_splitting_mem_zero _ _
      · rw [if_neg hlen] at h
        have hre : detect_scenes_frame_diff (some v) m = r := by simpa using h
        have hne : detect_scenes_frame_diff (some v) m ≠ [] := by
          intro he
          rw [he] at hlen
          exact hlen (by norm_num)
        refine ⟨⟨v.duration, ?_, le_refl _⟩, fun parsed hpe => ?_, fun hr2 => ?_⟩
        · rw [← hre]
          exact frame_diff_getLast hne
        · exact RunResult.noConfusion hpe
        · exact absurd hre.symm hr2
  | success parsed =>
      obtain ⟨r0, hr0, ⟨rest, hrest⟩, ⟨l, hll, hld⟩, hlen, -⟩ :=
        ffmpeg_success_shape parsed v.duration m
      have hsucc : detect_scenes_advanced (RunResult.success parsed) (some v) m =
          if r0.length < 2 then
            if (detect_scenes_frame_diff (some v) m).length < 2 then
              Except.ok (intelligent_splitting v.duration m)
            else Except.ok (detect_scenes_frame_diff (some v) m)
          else Except.ok r0 := by
        rw [advanced_def, hr0]
      rw [hsucc] at h
      by_cases hl2 : r0.length < 2
      · have hdur0 : v.duration = 0 := by
          by_contra hne0
          have hpos : 0 < v.duration := lt_of_le_of_ne hd (Ne.symm hne0)
          have := hlen hpos
          omega
        have hfd : (detect_scenes_frame_diff (some v) m).length < 2 :=
          frame_diff_zero_duration hdur0 m
        rw [if_pos hl2, if_pos hfd] at h
        have hre : intelligent_splitting v.duration m = r := by simpa using h
        refine ⟨⟨v.duration, ?_, le_refl _⟩, fun _ _ => ?_, fun _ => ?_⟩
        · rw [← hre]
          exact intelligent_splitting_getLast _ _
        · rw [← hre]
          exact intelligent_splitting_mem_zero _ _
        · rw [← hre]
          exact intelligent_splitting_mem_zero _ _
      · rw [if_neg hl2] at h
        have hre : r0 = r := by simpa using h
        subst hre
        refine ⟨⟨l, hll, hld⟩, fun _ _ => ?_, fun _ => ?_⟩
        · rw [hrest]
          exact List.mem_cons_self _ _
        · rw [hrest]
          exact List.mem_cons_self _ _

/-- Witness for detect_endpoints_amended: strategy 1 fails with a
non-zero exit, strategy 2 keeps nothing at minimum 100, and the
fallback answers [0, 30, 60] for the 60s file. -/
theorem detect_endpoints_amended_w :
    (∃ l, ([0, 30, 60] : List ℚ).getLast? = some l ∧ (60 : ℚ) ≤ l) ∧
    (∀ parsed, RunResult.calledProcessError = RunResult.success parsed →
      (0 : ℚ) ∈ ([0, 30, 60] : List ℚ)) ∧
    (([0, 30, 60] : List ℚ) ≠ detect_scenes_frame_diff (some (VideoInfo.mk 60 30)) 100 →
      (0 : ℚ) ∈ ([0, 30, 60] : List ℚ)) := by
  have h2 : detect_scenes_frame_diff (some (VideoInfo.mk 60 30)) 100 = [60] := by
    have h1 : pyRange 60 15 = [0, 15, 30, 45] := by decide
    norm_num [detect_scenes_frame_diff, sample_interval, pyInt, h1, List.filterMap]
  have h3 : intelligent_splitting 60 100 = [0, 30, 60] := by
    norm_num [intelligent_splitting, pyInt, List.range']
  have hrun : detect_scenes_advanced RunResult.calledProcessError
      (some (VideoInfo.mk 60 30)) 100 = Except.ok [0, 30, 60] := by
    have hstep : detect_scenes_advanced RunResult.calledProcessError
        (some (VideoInfo.mk 60 30)) 100 =
        if (detect_scenes_frame_diff (some (VideoInfo.mk 60 30)) 100).length < 2 then
          Except.ok (intelligent_splitting 60 100)
        else Except.ok (detect_scenes_frame_diff (some (VideoInfo.mk 60 30)) 100) := by
      rw [advanced_def]
      exact rfl
    rw [hstep, h2, h3]
    exact rfl
  exact detect_endpoints_amended RunResult.calledProcessError (VideoInfo.mk 60 30) 100
    [0, 30, 60] (by norm_num) hrun

/-- Counterexample to C1 as stated: with strategy 1 failing on a
non-zero exit and minimum scene duration 1 on a 60s 30fps file, the
cascade returns the frame-difference result [1, 1.5, 60], a successful
(≥ 2 entries) detection that does not contain 0. -/
theorem detect_missing_zero_cex :
    detect_scenes_advanced RunResult.calledProcessError (some (VideoInfo.mk 60 30)) 1 =
      Except.ok [1, 3/2, 60] ∧
    (0 : ℚ) ∉ ([1, 3/2, 60] : List ℚ) ∧ 2 ≤ ([1, 3/2, 60] : List ℚ).length := by
  have h2 : detect_scenes_frame_diff (some (VideoInfo.mk 60 30)) 1 = [1, 3/2, 60] := by
    have h1 : pyRange 60 15 = [0, 15, 30, 45] := by decide
    norm_num [detect_scenes_frame_diff, sample_interval, pyInt, h1, List.filterMap]
  refine ⟨?_, by norm_num, by norm_num⟩
  have hstep : detect_scenes_advanced RunResult.calledProcessError
      (some (VideoInfo.mk 60 30)) 1 =
      if (detect_scenes_frame_diff (some (VideoInfo.mk 60 30)) 1).length < 2 then
        Except.ok (intelligent_splitting 60 1)
      else Except.ok (detect_scenes_frame_diff (some (VideoInfo.mk 60 30)) 1) := by
    rw [advanced_def]
    exact rfl
  rw [hstep, h2]
  rfl

end EditVideo
